import Mathlib

/-!
Verification of the word-parallel Trivium keystream generator
(`src/examples/vhdl/Trivium/cref/trivium64.c`).

The C source operates on six global `uint64_t` words `s11 s12 s21 s22 s31 s32`.
We embed machine words as `Nat` with explicit `% 2^64` where C arithmetic wraps,
and thread the global state explicitly through every function.
-/

namespace Trivium

/-- The six global 64-bit state words of the C implementation:
`uint64_t s11, s12, s21, s22, s31, s32;`. -/
structure TState where
  s11 : Nat
  s12 : Nat
  s21 : Nat
  s22 : Nat
  s31 : Nat
  s32 : Nat
deriving DecidableEq, Repr

/-- Wellformedness: every global word is a 64-bit value (guaranteed by the
C type `uint64_t`). -/
def WF (st : TState) : Prop :=
  st.s11 < 2^64 ∧ st.s12 < 2^64 ∧ st.s21 < 2^64 ∧
  st.s22 < 2^64 ∧ st.s31 < 2^64 ∧ st.s32 < 2^64

/-- `uint64_t s66 = (s12 << 62) ^ (s11 >> 2);` -/
def tapA66 (st : TState) : Nat := ((st.s12 <<< 62) % 2^64) ^^^ (st.s11 >>> 2)
/-- `uint64_t s93 = (s12 << 35) ^ (s11 >> 29);` -/
def tapA93 (st : TState) : Nat := ((st.s12 <<< 35) % 2^64) ^^^ (st.s11 >>> 29)
/-- `uint64_t s162 = (s22 << 59) ^ (s21 >> 5);` -/
def tapB162 (st : TState) : Nat := ((st.s22 <<< 59) % 2^64) ^^^ (st.s21 >>> 5)
/-- `uint64_t s177 = (s22 << 44) ^ (s21 >> 20);` -/
def tapB177 (st : TState) : Nat := ((st.s22 <<< 44) % 2^64) ^^^ (st.s21 >>> 20)
/-- `uint64_t s243 = (s32 << 62) ^ (s31 >> 2);` -/
def tapC243 (st : TState) : Nat := ((st.s32 <<< 62) % 2^64) ^^^ (st.s31 >>> 2)
/-- `uint64_t s288 = (s32 << 17) ^ (s31 >> 47);` -/
def tapC288 (st : TState) : Nat := ((st.s32 <<< 17) % 2^64) ^^^ (st.s31 >>> 47)
/-- `uint64_t s91 = (s12 << 37) ^ (s11 >> 27);` -/
def tapA91 (st : TState) : Nat := ((st.s12 <<< 37) % 2^64) ^^^ (st.s11 >>> 27)
/-- `uint64_t s92 = (s12 << 36) ^ (s11 >> 28);` -/
def tapA92 (st : TState) : Nat := ((st.s12 <<< 36) % 2^64) ^^^ (st.s11 >>> 28)
/-- `uint64_t s171 = (s22 << 50) ^ (s21 >> 14);` -/
def tapB171 (st : TState) : Nat := ((st.s22 <<< 50) % 2^64) ^^^ (st.s21 >>> 14)
/-- `uint64_t s175 = (s22 << 46) ^ (s21 >> 18);` -/
def tapB175 (st : TState) : Nat := ((st.s22 <<< 46) % 2^64) ^^^ (st.s21 >>> 18)
/-- `uint64_t s176 = (s22 << 45) ^ (s21 >> 19);` -/
def tapB176 (st : TState) : Nat := ((st.s22 <<< 45) % 2^64) ^^^ (st.s21 >>> 19)
/-- `uint64_t s264 = (s32 << 41) ^ (s31 >> 23);` -/
def tapC264 (st : TState) : Nat := ((st.s32 <<< 41) % 2^64) ^^^ (st.s31 >>> 23)
/-- `uint64_t s286 = (s32 << 19) ^ (s31 >> 45);` -/
def tapC286 (st : TState) : Nat := ((st.s32 <<< 19) % 2^64) ^^^ (st.s31 >>> 45)
/-- `uint64_t s287 = (s32 << 18) ^ (s31 >> 46);` -/
def tapC287 (st : TState) : Nat := ((st.s32 <<< 18) % 2^64) ^^^ (st.s31 >>> 46)
/-- `uint64_t s69 = (s12 << 59) ^ (s11 >> 5);` -/
def tapA69 (st : TState) : Nat := ((st.s12 <<< 59) % 2^64) ^^^ (st.s11 >>> 5)

/-- `uint64_t trivium64_next()`: computes the 64-bit output word `z` and the
rotated state.  Taps, `t1/t2/t3`, `z`, the `^=` updates and the final rotation
`s12 = s11; s11 = t3; s22 = s21; s21 = t1; s32 = s31; s31 = t2;` are translated
line by line. -/
def trivium64_next (st : TState) : Nat × TState :=
  let t1 := tapA66 st ^^^ tapA93 st
  let t2 := tapB162 st ^^^ tapB177 st
  let t3 := tapC243 st ^^^ tapC288 st
  let z := t1 ^^^ t2 ^^^ t3
  let u1 := t1 ^^^ ((tapA91 st &&& tapA92 st) ^^^ tapB171 st)
  let u2 := t2 ^^^ ((tapB175 st &&& tapB176 st) ^^^ tapC264 st)
  let u3 := t3 ^^^ ((tapC286 st &&& tapC287 st) ^^^ tapA69 st)
  (z, ⟨u3, st.s11, u1, st.s21, u2, st.s31⟩)

/-- Output word of one call of `trivium64_next`. -/
def nextWord (st : TState) : Nat := (trivium64_next st).1

/-- State after one call of `trivium64_next`. -/
def nextState (st : TState) : TState := (trivium64_next st).2

/-- `n` calls of `trivium64_next`, keeping only the state (as in the
blank-round loop of `trivium64_setseed`, which discards the return value). -/
def stepN : Nat → TState → TState
  | 0, st => st
  | n+1, st => stepN n (nextState st)

/-- The assignment block of `trivium64_setseed`:
`s11 = seed; s12 = 0; s21 = seq; s22 = 0; s31 = 0; s32 = 0x700000000000;`
applied to the incoming global state `g` (every word is overwritten). -/
def seedRegs (g : TState) (seed seq : Nat) : TState :=
  { g with s11 := seed, s12 := 0, s21 := seq, s22 := 0, s31 := 0,
           s32 := 0x700000000000 }

/-- `void trivium64_setseed(uint64_t seed, uint64_t seq)`: sets the six global
words, then runs 18 blank rounds. -/
def trivium64_setseed (g : TState) (seed seq : Nat) : TState :=
  stepN 18 (seedRegs g seed seq)

/-- `bytes_to_uint64`: big-endian decoding of an 8-byte buffer.  The C loop
starts from `*u = bytes[7]` and ors in `bytes[i] << ((7 - i) * 8)` for
`i = 0..6`. -/
def bytes_to_uint64 (bytes : List Nat) : Nat :=
  (List.range 7).foldl (fun u i => u ||| ((bytes.getD i 0) <<< ((7 - i) * 8)))
    (bytes.getD 7 0)

/-- `uint64_to_bytes`: big-endian encoding of a 64-bit word.  The C loop
writes `bytes[7 - i] = u & 0xff; u >>= 8;` for `i = 0..7`, i.e.
`bytes[j] = (u >> (8 * (7 - j))) & 0xff`. -/
def uint64_to_bytes (u : Nat) : List Nat :=
  (List.range 8).map (fun j => (u >>> ((7 - j) * 8)) &&& 0xff)

/-- The full-word loop of `trivium_api`: `n` iterations, each producing
`uint64_to_bytes (trivium64_next ())` appended to the keystream buffer;
also returns the state after the loop. -/
def fullWords : Nat → TState → List Nat × TState
  | 0, st => ([], st)
  | n+1, st =>
      let p := fullWords n (nextState st)
      (uint64_to_bytes (nextWord st) ++ p.1, p.2)

/-- `void trivium_api(const uint8_t *key, const uint8_t *iv, size_t ks_size,
uint8_t *ks)`: decodes key and iv, seeds, fills `ks_size - remainder` bytes by
full 64-bit words, then, if `remainder = ks_size % 8` is non-zero, performs one
more `trivium64_next` and writes `ks[ks_size - remainder + i] =
(ks64 >> (7 - i)) & 0xff` for `i < remainder`.  Returns the keystream bytes and
the final global state. -/
def trivium_api (g : TState) (key iv : List Nat) (ks_size : Nat) :
    List Nat × TState :=
  let key64 := bytes_to_uint64 key
  let iv64 := bytes_to_uint64 iv
  let st0 := trivium64_setseed g key64 iv64
  let remainder := ks_size % 8
  let p := fullWords ((ks_size - remainder) / 8) st0
  if remainder = 0 then p
  else
    let ks64 := nextWord p.2
    (p.1 ++ (List.range remainder).map (fun i => (ks64 >>> (7 - i)) &&& 0xff),
     nextState p.2)

/-- Keystream bytes of `trivium_api` (the caller-visible output buffer),
started from the all-zero global state. -/
def apiBytes (key iv : List Nat) (ks_size : Nat) : List Nat :=
  (trivium_api ⟨0, 0, 0, 0, 0, 0⟩ key iv ks_size).1

/-- The state of the generator right after seeding inside `trivium_api`
(before any real output is produced). -/
def apiSeedState (key iv : List Nat) : TState :=
  trivium64_setseed ⟨0, 0, 0, 0, 0, 0⟩ (bytes_to_uint64 key) (bytes_to_uint64 iv)

/-- The output loop of `trivium_api`, run from a given register state:
everything `trivium_api` does after seeding. -/
def apiDriver (st0 : TState) (ks_size : Nat) : List Nat :=
  let remainder := ks_size % 8
  let p := fullWords ((ks_size - remainder) / 8) st0
  if remainder = 0 then p.1
  else p.1 ++ (List.range remainder).map
    (fun i => ((nextWord p.2) >>> (7 - i)) &&& 0xff)

/-- The 64-bit word consumed by the partial-tail branch of `trivium_api`:
the single extra `trivium64_next` output after the `ks_size / 8` full words. -/
def tailWord (key iv : List Nat) (ks_size : Nat) : Nat :=
  nextWord (stepN (ks_size / 8) (apiSeedState key iv))

/-! ### Write-index model of the `trivium_api` output loops

`uint64_to_bytes(ks64, &ks[i])` writes offsets `i + 7, i + 6, …, i + 0`
(its loop assigns `bytes[sizeof(u) - 1 - i]` first), and the tail loop writes
`ks[ks_size - remainder + i]` for `i = 0, …, remainder - 1`. -/

/-- Buffer offsets written by the full-word loop iteration with `i = 8 * q`. -/
def wordWrites (q : Nat) : List Nat :=
  (List.range 8).map (fun i => 8 * q + (7 - i))

/-- Buffer offsets written by the whole full-word loop (`q` iterations). -/
def fullWrites : Nat → List Nat
  | 0 => []
  | q+1 => fullWrites q ++ wordWrites q

/-- All buffer offsets written by `trivium_api` for a request of `n` bytes. -/
def apiWriteIndices (n : Nat) : List Nat :=
  let r := n % 8
  fullWrites ((n - r) / 8) ++ (List.range r).map (fun i => (n - r) + i)

/-! ### Bit-serial Trivium reference

Modelled from the spec: the canonical bit-serial Trivium round (spec §4.2 and
glossary), with the three shift registers A (93 bits), B (84 bits) and
C (111 bits) held as natural numbers below `2^93`, `2^84`, `2^111`.  The bit
at depth `d` of a register (depth 1 = most recently inserted) is bit `d - 1`
of the number, so canonical state bit `s_n` is `A.testBit (n - 1)` for
`n ≤ 93`, `B.testBit (n - 94)` for `94 ≤ n ≤ 177`, and `C.testBit (n - 178)`
for `178 ≤ n ≤ 288`. -/
structure SState where
  A : Nat
  B : Nat
  C : Nat
deriving DecidableEq, Repr

/-- Modelled from the spec: canonical Trivium state bit `s_n` (`1 ≤ n ≤ 288`). -/
def sTap (st : SState) (n : Nat) : Bool :=
  if n ≤ 93 then st.A.testBit (n - 1)
  else if n ≤ 177 then st.B.testBit (n - 94)
  else st.C.testBit (n - 178)

/-- Modelled from the spec: one canonical bit-serial Trivium round.
`t1 = s66 + s93`, `t2 = s162 + s177`, `t3 = s243 + s288`,
`z = t1 + t2 + t3`, then `t1 += s91·s92 + s171`, `t2 += s175·s176 + s264`,
`t3 += s286·s287 + s69`, and each register shifts by one, inserting `t3`
into A, `t1` into B and `t2` into C. -/
def serialStep (st : SState) : Bool × SState :=
  let t1 := (sTap st 66).xor (sTap st 93)
  let t2 := (sTap st 162).xor (sTap st 177)
  let t3 := (sTap st 243).xor (sTap st 288)
  let z := (t1.xor t2).xor t3
  let u1 := t1.xor (((sTap st 91).and (sTap st 92)).xor (sTap st 171))
  let u2 := t2.xor (((sTap st 175).and (sTap st 176)).xor (sTap st 264))
  let u3 := t3.xor (((sTap st 286).and (sTap st 287)).xor (sTap st 69))
  (z, ⟨(2 * st.A + cond u3 1 0) % 2^93,
       (2 * st.B + cond u1 1 0) % 2^84,
       (2 * st.C + cond u2 1 0) % 2^111⟩)

/-- `n` serial rounds, collecting the output bits in order. -/
def serialSteps : Nat → SState → List Bool × SState
  | 0, st => ([], st)
  | n+1, st =>
      let p := serialStep st
      let q := serialSteps n p.2
      (p.1 :: q.1, q.2)

/-- Modelled from the spec: the serial state corresponding to the seeded
(pre-warm-up) word state: register A holds the 64 key bits, B the sequence
number, and C has its three oldest bits set (canonical "111" suffix at state
bits 286..288). -/
def serialInit (key seq : Nat) : SState :=
  ⟨key, seq, 0x700000000000 * 2^64⟩

/-- Abstraction map: the lowest 93/84/111 bits of each register's 128-bit
recent history `older * 2^64 + newer` form the corresponding serial register. -/
def alpha (st : TState) : SState :=
  ⟨(st.s12 * 2^64 + st.s11) % 2^93,
   (st.s22 * 2^64 + st.s21) % 2^84,
   (st.s32 * 2^64 + st.s31) % 2^111⟩

/-- MSB-first bits of a 64-bit word. -/
def wordBits (w : Nat) : List Bool :=
  (List.range 64).map (fun j => w.testBit (63 - j))

/-- Pack a bit list into a natural number, first bit most significant. -/
def bitsToWord (bs : List Bool) : Nat :=
  bs.foldl (fun a b => 2 * a + cond b 1 0) 0

/-- Pack a bit stream MSB-first into 64-bit words. -/
def packBits : List Bool → List Nat
  | [] => []
  | b :: bs =>
      bitsToWord ((b :: bs).take 64) :: packBits ((b :: bs).drop 64)
  termination_by bs => bs.length
  decreasing_by simp; omega

/-- `k` calls of `trivium64_next`, collecting the output words. -/
def trivRun : Nat → TState → List Nat
  | 0, _ => []
  | k+1, st => nextWord st :: trivRun k (nextState st)

/-! ### Helper definitions naming the intermediate words of `trivium64_next` -/

/-- The output word `z = t1 ^ t2 ^ t3` of one batched step. -/
def zOut (st : TState) : Nat :=
  (tapA66 st ^^^ tapA93 st) ^^^ (tapB162 st ^^^ tapB177 st) ^^^
    (tapC243 st ^^^ tapC288 st)

/-- The word fed into register A (the C variable `t3` after `t3 ^= …`). -/
def tOutA (st : TState) : Nat :=
  (tapC243 st ^^^ tapC288 st) ^^^ ((tapC286 st &&& tapC287 st) ^^^ tapA69 st)

/-- The word fed into register B (the C variable `t1` after `t1 ^= …`). -/
def tOutB (st : TState) : Nat :=
  (tapA66 st ^^^ tapA93 st) ^^^ ((tapA91 st &&& tapA92 st) ^^^ tapB171 st)

/-- The word fed into register C (the C variable `t2` after `t2 ^= …`). -/
def tOutC (st : TState) : Nat :=
  (tapB162 st ^^^ tapB177 st) ^^^ ((tapB175 st &&& tapB176 st) ^^^ tapC264 st)

/-- The spec formula for extracting a tap at bit offset `n` of a register's
128-bit recent history `(newer, older)`:
`tap(n) = (older << (128 - n)) XOR (newer >> (n - 64))` for `64 < n <= 128`,
in 64-bit arithmetic. -/
def tapFormula (older newer n : Nat) : Nat :=
  ((older <<< (128 - n)) % 2^64) ^^^ (newer >>> (n - 64))

/-- After `i` of the 64 serial sub-steps of one batched step from `st`, each
serial register equals the register's pre-step 128-bit history shifted up by
`i` with the first `i` freshly inserted bits below, truncated to the register
length. -/
def hyb (st : TState) (i : Nat) : SState :=
  ⟨((st.s12 * 2^64 + st.s11) * 2^i + tOutA st >>> (64 - i)) % 2^93,
   ((st.s22 * 2^64 + st.s21) * 2^i + tOutB st >>> (64 - i)) % 2^84,
   ((st.s32 * 2^64 + st.s31) * 2^i + tOutC st >>> (64 - i)) % 2^111⟩

theorem next_eq (st : TState) :
    trivium64_next st =
      (zOut st, ⟨tOutA st, st.s11, tOutB st, st.s21, tOutC st, st.s31⟩) := rfl

theorem nextWord_eq (st : TState) : nextWord st = zOut st := rfl

theorem nextState_eq (st : TState) :
    nextState st = ⟨tOutA st, st.s11, tOutB st, st.s21, tOutC st, st.s31⟩ := rfl

/-! ### Bit-level lemmas -/

theorem tap_lt (older newer u v : Nat) (h : newer < 2^64) :
    ((older <<< u) % 2^64) ^^^ (newer >>> v) < 2^64 := by
  refine Nat.xor_lt_two_pow (Nat.mod_lt _ (Nat.two_pow_pos 64)) ?_
  rw [Nat.shiftRight_eq_div_pow]
  exact lt_of_le_of_lt (Nat.div_le_self _ _) h

theorem zOut_lt (st : TState) (h : WF st) : zOut st < 2^64 := by
  obtain ⟨h11, h12, h21, h22, h31, h32⟩ := h
  exact Nat.xor_lt_two_pow
    (Nat.xor_lt_two_pow
      (Nat.xor_lt_two_pow (tap_lt _ _ _ _ h11) (tap_lt _ _ _ _ h11))
      (Nat.xor_lt_two_pow (tap_lt _ _ _ _ h21) (tap_lt _ _ _ _ h21)))
    (Nat.xor_lt_two_pow (tap_lt _ _ _ _ h31) (tap_lt _ _ _ _ h31))

theorem tOutA_lt (st : TState) (h : WF st) : tOutA st < 2^64 := by
  obtain ⟨h11, h12, h21, h22, h31, h32⟩ := h
  exact Nat.xor_lt_two_pow
    (Nat.xor_lt_two_pow (tap_lt _ _ _ _ h31) (tap_lt _ _ _ _ h31))
    (Nat.xor_lt_two_pow (Nat.and_lt_two_pow _ (tap_lt _ _ _ _ h31))
      (tap_lt _ _ _ _ h11))

theorem tOutB_lt (st : TState) (h : WF st) : tOutB st < 2^64 := by
  obtain ⟨h11, h12, h21, h22, h31, h32⟩ := h
  exact Nat.xor_lt_two_pow
    (Nat.xor_lt_two_pow (tap_lt _ _ _ _ h11) (tap_lt _ _ _ _ h11))
    (Nat.xor_lt_two_pow (Nat.and_lt_two_pow _ (tap_lt _ _ _ _ h11))
      (tap_lt _ _ _ _ h21))

theorem tOutC_lt (st : TState) (h : WF st) : tOutC st < 2^64 := by
  obtain ⟨h11, h12, h21, h22, h31, h32⟩ := h
  exact Nat.xor_lt_two_pow
    (Nat.xor_lt_two_pow (tap_lt _ _ _ _ h21) (tap_lt _ _ _ _ h21))
    (Nat.xor_lt_two_pow (Nat.and_lt_two_pow _ (tap_lt _ _ _ _ h21))
      (tap_lt _ _ _ _ h31))

theorem WF_nextState (st : TState) (h : WF st) : WF (nextState st) := by
  rw [nextState_eq]
  exact ⟨tOutA_lt st h, h.1, tOutB_lt st h, h.2.2.1, tOutC_lt st h, h.2.2.2.2.1⟩

theorem hiLo_testBit (a lo m : Nat) (hlo : lo < 2^64) :
    (a * 2^64 + lo).testBit m =
      if m < 64 then lo.testBit m else a.testBit (m - 64) := by
  rw [Nat.mul_comm a, Nat.testBit_mul_pow_two_add _ hlo]

/-- Bit `k` of a tap word `(older << u) ^ (newer >> v)` (with `u + v = 64`)
is bit `v + k` of the 128-bit history `older * 2^64 + newer`. -/
theorem tapword_testBit (older newer u v k : Nat) (hnew : newer < 2^64)
    (huv : u + v = 64) (hk : k < 64) :
    (((older <<< u) % 2^64) ^^^ (newer >>> v)).testBit k =
      (older * 2^64 + newer).testBit (v + k) := by
  rw [Nat.testBit_xor, Nat.testBit_mod_two_pow, Nat.testBit_shiftLeft,
    Nat.testBit_shiftRight, hiLo_testBit _ _ _ hnew]
  rcases Nat.lt_or_ge k u with h | h
  · rw [if_pos (show v + k < 64 by omega)]
    simp [show ¬ (k ≥ u) by omega, hk]
  · rw [if_neg (show ¬ (v + k < 64) by omega)]
    have h2 : newer.testBit (v + k) = false :=
      Nat.testBit_lt_two_pow
        (lt_of_lt_of_le hnew (Nat.pow_le_pow_right (by norm_num) (by omega)))
    have h3 : v + k - 64 = k - u := by omega
    simp [show k ≥ u from h, hk, h2, h3]

theorem hyb_reg_testBit (H t L i d : Nat) (ht : t < 2^64) (hi : i < 64)
    (hd1 : i ≤ d) (hd2 : d < L) :
    ((H * 2^i + t >>> (64 - i)) % 2^L).testBit d = H.testBit (d - i) := by
  have hlt : t >>> (64 - i) < 2^i := by
    rw [Nat.shiftRight_eq_div_pow]
    refine Nat.div_lt_of_lt_mul ?_
    calc t < 2^64 := ht
      _ = 2^(64 - i) * 2^i := by rw [← Nat.pow_add]; congr 1; omega
  rw [Nat.testBit_mod_two_pow, Nat.mul_comm H,
    Nat.testBit_mul_pow_two_add _ hlt]
  rw [if_neg (show ¬ d < i by omega)]
  simp [hd2]

theorem shiftRight_decomp (t k : Nat) :
    t >>> k = 2 * (t >>> (k+1)) + cond (t.testBit k) 1 0 := by
  rw [Nat.shiftRight_eq_div_pow, Nat.shiftRight_eq_div_pow,
    Nat.testBit_to_div_mod, Nat.pow_succ, ← Nat.div_div_eq_div_mul]
  rcases Nat.mod_two_eq_zero_or_one (t / 2^k) with h | h <;> simp [h] <;> omega

/-! ### The hybrid states interpolating one batched step into 64 serial rounds -/

theorem sTapA_hyb (st : TState) (hwf : WF st) (i m : Nat) (hi : i < 64)
    (h1 : 64 ≤ m) (h2 : m ≤ 93) :
    sTap (hyb st i) m = (st.s12 * 2^64 + st.s11).testBit (m - 1 - i) := by
  have h3 : sTap (hyb st i) m =
      (((st.s12 * 2^64 + st.s11) * 2^i + tOutA st >>> (64 - i))
        % 2^93).testBit (m - 1) := by
    simp [sTap, hyb, h2]
  rw [h3]
  exact hyb_reg_testBit _ _ 93 i (m - 1) (tOutA_lt st hwf) hi (by omega)
    (by omega)

theorem sTapB_hyb (st : TState) (hwf : WF st) (i m : Nat) (hi : i < 64)
    (h1 : 158 ≤ m) (h2 : m ≤ 177) :
    sTap (hyb st i) m = (st.s22 * 2^64 + st.s21).testBit (m - 94 - i) := by
  have h3 : sTap (hyb st i) m =
      (((st.s22 * 2^64 + st.s21) * 2^i + tOutB st >>> (64 - i))
        % 2^84).testBit (m - 94) := by
    simp [sTap, hyb, show ¬ (m ≤ 93) by omega, h2]
  rw [h3]
  exact hyb_reg_testBit _ _ 84 i (m - 94) (tOutB_lt st hwf) hi (by omega)
    (by omega)

theorem sTapC_hyb (st : TState) (hwf : WF st) (i m : Nat) (hi : i < 64)
    (h1 : 242 ≤ m) (h2 : m ≤ 288) :
    sTap (hyb st i) m = (st.s32 * 2^64 + st.s31).testBit (m - 178 - i) := by
  have h3 : sTap (hyb st i) m =
      (((st.s32 * 2^64 + st.s31) * 2^i + tOutC st >>> (64 - i))
        % 2^111).testBit (m - 178) := by
    simp [sTap, hyb, show ¬ (m ≤ 93) by omega, show ¬ (m ≤ 177) by omega]
  rw [h3]
  exact hyb_reg_testBit _ _ 111 i (m - 178) (tOutC_lt st hwf) hi (by omega)
    (by omega)

theorem reg_shift (H t L i : Nat) (hi : i < 64) :
    (2 * ((H * 2^i + t >>> (64 - i)) % 2^L) + cond (t.testBit (63 - i)) 1 0)
        % 2^L
      = (H * 2^(i+1) + t >>> (64 - (i+1))) % 2^L := by
  have h1 : (64 : Nat) - (i+1) = 63 - i := by omega
  have h2 : (63 - i) + 1 = 64 - i := by omega
  rw [h1, shiftRight_decomp t (63 - i), h2]
  have hmod : (2 * ((H * 2^i + t >>> (64 - i)) % 2^L)
        + cond (t.testBit (63 - i)) 1 0) % 2^L
      = (2 * (H * 2^i + t >>> (64 - i)) + cond (t.testBit (63 - i)) 1 0)
        % 2^L :=
    ((Nat.mod_modEq (H * 2^i + t >>> (64 - i)) (2^L)).mul_left 2).add_right _
  rw [hmod]
  congr 1
  ring

/-- One serial round on the hybrid state is bit `63 - i` of the batched output
together with the next hybrid state. -/
theorem hyb_step (st : TState) (hwf : WF st) (i : Nat) (hi : i < 64) :
    serialStep (hyb st i) = ((zOut st).testBit (63 - i), hyb st (i+1)) := by
  have hA66 : sTap (hyb st i) 66 = (tapA66 st).testBit (63 - i) := by
    rw [sTapA_hyb st hwf i 66 hi (by omega) (by omega),
      show 66 - 1 - i = 2 + (63 - i) by omega]
    exact (tapword_testBit st.s12 st.s11 62 2 (63 - i) hwf.1 (by omega)
      (by omega)).symm
  have hA93 : sTap (hyb st i) 93 = (tapA93 st).testBit (63 - i) := by
    rw [sTapA_hyb st hwf i 93 hi (by omega) (by omega),
      show 93 - 1 - i = 29 + (63 - i) by omega]
    exact (tapword_testBit st.s12 st.s11 35 29 (63 - i) hwf.1 (by omega)
      (by omega)).symm
  have hA91 : sTap (hyb st i) 91 = (tapA91 st).testBit (63 - i) := by
    rw [sTapA_hyb st hwf i 91 hi (by omega) (by omega),
      show 91 - 1 - i = 27 + (63 - i) by omega]
    exact (tapword_testBit st.s12 st.s11 37 27 (63 - i) hwf.1 (by omega)
      (by omega)).symm
  have hA92 : sTap (hyb st i) 92 = (tapA92 st).testBit (63 - i) := by
    rw [sTapA_hyb st hwf i 92 hi (by omega) (by omega),
      show 92 - 1 - i = 28 + (63 - i) by omega]
    exact (tapword_testBit st.s12 st.s11 36 28 (63 - i) hwf.1 (by omega)
      (by omega)).symm
  have hA69 : sTap (hyb st i) 69 = (tapA69 st).testBit (63 - i) := by
    rw [sTapA_hyb st hwf i 69 hi (by omega) (by omega),
      show 69 - 1 - i = 5 + (63 - i) by omega]
    exact (tapword_testBit st.s12 st.s11 59 5 (63 - i) hwf.1 (by omega)
      (by omega)).symm
  have hB162 : sTap (hyb st i) 162 = (tapB162 st).testBit (63 - i) := by
    rw [sTapB_hyb st hwf i 162 hi (by omega) (by omega),
      show 162 - 94 - i = 5 + (63 - i) by omega]
    exact (tapword_testBit st.s22 st.s21 59 5 (63 - i) hwf.2.2.1 (by omega)
      (by omega)).symm
  have hB177 : sTap (hyb st i) 177 = (tapB177 st).testBit (63 - i) := by
    rw [sTapB_hyb st hwf i 177 hi (by omega) (by omega),
      show 177 - 94 - i = 20 + (63 - i) by omega]
    exact (tapword_testBit st.s22 st.s21 44 20 (63 - i) hwf.2.2.1 (by omega)
      (by omega)).symm
  have hB171 : sTap (hyb st i) 171 = (tapB171 st).testBit (63 - i) := by
    rw [sTapB_hyb st hwf i 171 hi (by omega) (by omega),
      show 171 - 94 - i = 14 + (63 - i) by omega]
    exact (tapword_testBit st.s22 st.s21 50 14 (63 - i) hwf.2.2.1 (by omega)
      (by omega)).symm
  have hB175 : sTap (hyb st i) 175 = (tapB175 st).testBit (63 - i) := by
    rw [sTapB_hyb st hwf i 175 hi (by omega) (by omega),
      show 175 - 94 - i = 18 + (63 - i) by omega]
    exact (tapword_testBit st.s22 st.s21 46 18 (63 - i) hwf.2.2.1 (by omega)
      (by omega)).symm
  have hB176 : sTap (hyb st i) 176 = (tapB176 st).testBit (63 - i) := by
    rw [sTapB_hyb st hwf i 176 hi (by omega) (by omega),
      show 176 - 94 - i = 19 + (63 - i) by omega]
    exact (tapword_testBit st.s22 st.s21 45 19 (63 - i) hwf.2.2.1 (by omega)
      (by omega)).symm
  have hC243 : sTap (hyb st i) 243 = (tapC243 st).testBit (63 - i) := by
    rw [sTapC_hyb st hwf i 243 hi (by omega) (by omega),
      show 243 - 178 - i = 2 + (63 - i) by omega]
    exact (tapword_testBit st.s32 st.s31 62 2 (63 - i) hwf.2.2.2.2.1
      (by omega) (by omega)).symm
  have hC288 : sTap (hyb st i) 288 = (tapC288 st).testBit (63 - i) := by
    rw [sTapC_hyb st hwf i 288 hi (by omega) (by omega),
      show 288 - 178 - i = 47 + (63 - i) by omega]
    exact (tapword_testBit st.s32 st.s31 17 47 (63 - i) hwf.2.2.2.2.1
      (by omega) (by omega)).symm
  have hC264 : sTap (hyb st i) 264 = (tapC264 st).testBit (63 - i) := by
    rw [sTapC_hyb st hwf i 264 hi (by omega) (by omega),
      show 264 - 178 - i = 23 + (63 - i) by omega]
    exact (tapword_testBit st.s32 st.s31 41 23 (63 - i) hwf.2.2.2.2.1
      (by omega) (by omega)).symm
  have hC286 : sTap (hyb st i) 286 = (tapC286 st).testBit (63 - i) := by
    rw [sTapC_hyb st hwf i 286 hi (by omega) (by omega),
      show 286 - 178 - i = 45 + (63 - i) by omega]
    exact (tapword_testBit st.s32 st.s31 19 45 (63 - i) hwf.2.2.2.2.1
      (by omega) (by omega)).symm
  have hC287 : sTap (hyb st i) 287 = (tapC287 st).testBit (63 - i) := by
    rw [sTapC_hyb st hwf i 287 hi (by omega) (by omega),
      show 287 - 178 - i = 46 + (63 - i) by omega]
    exact (tapword_testBit st.s32 st.s31 18 46 (63 - i) hwf.2.2.2.2.1
      (by omega) (by omega)).symm
  have ezZ : ((tapA66 st ^^^ tapA93 st) ^^^ (tapB162 st ^^^ tapB177 st)) ^^^
      (tapC243 st ^^^ tapC288 st) = zOut st := rfl
  have ezA : (tapC243 st ^^^ tapC288 st) ^^^
      ((tapC286 st &&& tapC287 st) ^^^ tapA69 st) = tOutA st := rfl
  have ezB : (tapA66 st ^^^ tapA93 st) ^^^
      ((tapA91 st &&& tapA92 st) ^^^ tapB171 st) = tOutB st := rfl
  have ezC : (tapB162 st ^^^ tapB177 st) ^^^
      ((tapB175 st &&& tapB176 st) ^^^ tapC264 st) = tOutC st := rfl
  simp only [serialStep, hA66, hA93, hA91, hA92, hA69, hB162, hB177, hB171,
    hB175, hB176, hC243, hC288, hC264, hC286, hC287,
    ← Nat.testBit_xor, ← Nat.testBit_and, ezZ, ezA, ezB, ezC]
  rw [Prod.mk.injEq]
  refine ⟨rfl, ?_⟩
  show (⟨_, _, _⟩ : SState) = hyb st (i+1)
  rw [hyb, hyb, SState.mk.injEq]
  exact ⟨reg_shift _ _ 93 i hi, reg_shift _ _ 84 i hi, reg_shift _ _ 111 i hi⟩

theorem hyb_zero (st : TState) (hwf : WF st) : hyb st 0 = alpha st := by
  have h1 : tOutA st >>> 64 = 0 := by
    rw [Nat.shiftRight_eq_div_pow]; exact Nat.div_eq_of_lt (tOutA_lt st hwf)
  have h2 : tOutB st >>> 64 = 0 := by
    rw [Nat.shiftRight_eq_div_pow]; exact Nat.div_eq_of_lt (tOutB_lt st hwf)
  have h3 : tOutC st >>> 64 = 0 := by
    rw [Nat.shiftRight_eq_div_pow]; exact Nat.div_eq_of_lt (tOutC_lt st hwf)
  simp [hyb, alpha, h1, h2, h3]

theorem wrapmod (a b t L : Nat) (hL : L ≤ 128) :
    ((a * 2^64 + b) * 2^64 + t) % 2^L = (b * 2^64 + t) % 2^L := by
  have e : (2:Nat)^64 * 2^64 = 2^(128 - L) * 2^L := by
    rw [← Nat.pow_add, ← Nat.pow_add]; congr 1; omega
  calc ((a * 2^64 + b) * 2^64 + t) % 2^L
      = (b * 2^64 + t + a * (2^64 * 2^64)) % 2^L := by ring_nf
    _ = (b * 2^64 + t + a * (2^(128 - L) * 2^L)) % 2^L := by rw [e]
    _ = (b * 2^64 + t) % 2^L := by
        rw [← Nat.mul_assoc, Nat.add_mul_mod_self_right]

theorem hyb_64 (st : TState) : hyb st 64 = alpha (nextState st) := by
  rw [nextState_eq]
  simp only [hyb, alpha, Nat.sub_self, Nat.shiftRight_zero]
  rw [SState.mk.injEq]
  exact ⟨wrapmod _ _ _ 93 (by omega), wrapmod _ _ _ 84 (by omega),
    wrapmod _ _ _ 111 (by omega)⟩

theorem hyb_run (st : TState) (hwf : WF st) :
    ∀ d i, i + d = 64 →
      serialSteps d (hyb st i) =
        ((List.range d).map (fun j => (zOut st).testBit (63 - i - j)),
         hyb st 64) := by
  intro d
  induction d with
  | zero =>
    intro i h
    have : i = 64 := by omega
    subst this
    simp [serialSteps]
  | succ d ih =>
    intro i h
    have hi : i < 64 := by omega
    simp only [serialSteps, hyb_step st hwf i hi]
    rw [ih (i+1) (by omega)]
    rw [Prod.mk.injEq]
    refine ⟨?_, rfl⟩
    rw [List.range_succ_eq_map, List.map_cons, List.map_map]
    rw [List.cons.injEq]
    constructor
    · congr 1
    · apply List.map_congr_left
      intro a _
      simp only [Function.comp]
      congr 1
      omega

theorem batch (st : TState) (hwf : WF st) :
    serialSteps 64 (alpha st) =
      (wordBits (nextWord st), alpha (nextState st)) := by
  have h := hyb_run st hwf 64 0 rfl
  rw [hyb_zero st hwf, hyb_64 st] at h
  rw [h, nextWord_eq, wordBits, Prod.mk.injEq]
  refine ⟨?_, rfl⟩
  apply List.map_congr_left
  intro a _
  congr 1

/-! ### Packing lemmas -/

theorem serialSteps_add (a b : Nat) (st : SState) :
    serialSteps (a + b) st =
      ((serialSteps a st).1 ++ (serialSteps b (serialSteps a st).2).1,
       (serialSteps b (serialSteps a st).2).2) := by
  induction a generalizing st with
  | zero => simp [serialSteps]
  | succ a ih => simp [serialSteps, Nat.succ_add, ih]

theorem foldl_acc (l : List Bool) :
    ∀ a : Nat, l.foldl (fun a b => 2 * a + cond b 1 0) a
      = a * 2^l.length + l.foldl (fun a b => 2 * a + cond b 1 0) 0 := by
  induction l with
  | nil => simp
  | cons x l ih =>
    intro a
    simp only [List.foldl_cons, List.length_cons]
    rw [ih (2 * a + cond x 1 0), ih (2 * 0 + cond x 1 0)]
    ring

theorem bitsToWord_msb (n : Nat) (w : Nat) :
    bitsToWord ((List.range n).map (fun j => w.testBit (n - 1 - j)))
      = w % 2^n := by
  induction n with
  | zero => simp [bitsToWord, Nat.mod_one]
  | succ n ih =>
    rw [List.range_succ_eq_map, List.map_cons, List.map_map]
    have htail : (List.range n).map
          ((fun j => w.testBit (n + 1 - 1 - j)) ∘ Nat.succ)
        = (List.range n).map (fun j => w.testBit (n - 1 - j)) := by
      apply List.map_congr_left
      intro a _
      simp only [Function.comp]
      congr 1
      omega
    rw [htail, bitsToWord, List.foldl_cons, foldl_acc]
    rw [bitsToWord] at ih
    rw [ih]
    simp only [List.length_map, List.length_range]
    have hbit : w.testBit (n + 1 - 1 - 0) = decide (w / 2^n % 2 = 1) := by
      rw [show n + 1 - 1 - 0 = n by omega, Nat.testBit_to_div_mod]
    rw [hbit, Nat.mod_pow_succ]
    rcases Nat.mod_two_eq_zero_or_one (w / 2^n) with h | h <;>
      rw [h] <;> simp <;> omega

theorem bitsToWord_wordBits (w : Nat) (h : w < 2^64) :
    bitsToWord (wordBits w) = w := by
  have h1 := bitsToWord_msb 64 w
  have h2 : (List.range 64).map (fun j => w.testBit (64 - 1 - j))
      = wordBits w := by
    apply List.map_congr_left
    intro a _
    congr 1
  rw [h2] at h1
  rw [h1, Nat.mod_eq_of_lt h]

theorem packBits_append (l1 l2 : List Bool) (h : l1.length = 64) :
    packBits (l1 ++ l2) = bitsToWord l1 :: packBits l2 := by
  cases l1 with
  | nil => simp at h
  | cons b bs =>
    rw [List.cons_append, packBits, ← List.cons_append, ← h,
      List.take_left, List.drop_left]

theorem WF_stepN (n : Nat) : ∀ st, WF st → WF (stepN n st) := by
  induction n with
  | zero => intro st h; exact h
  | succ n ih => intro st h; exact ih _ (WF_nextState st h)

/-- Main simulation: `k` batched steps from any wellformed word state produce
exactly the MSB-first packing of `64 * k` serial rounds from the abstracted
state. -/
theorem trivRun_pack (k : Nat) : ∀ st, WF st →
    trivRun k st = packBits (serialSteps (64 * k) (alpha st)).1 := by
  induction k with
  | zero =>
    intro st _
    simp [trivRun, serialSteps, packBits, Nat.mul_zero]
  | succ k ih =>
    intro st hwf
    rw [trivRun, show 64 * (k+1) = 64 + 64 * k by ring, serialSteps_add,
      batch st hwf]
    show nextWord st :: trivRun k (nextState st)
      = packBits (wordBits (nextWord st)
          ++ (serialSteps (64 * k) (alpha (nextState st))).1)
    rw [packBits_append _ _ (by simp [wordBits]),
      bitsToWord_wordBits (nextWord st) (zOut_lt st hwf),
      ih (nextState st) (WF_nextState st hwf)]

theorem alpha_seedRegs (g : TState) (key seq : Nat) (hk : key < 2^64)
    (hs : seq < 2^64) : alpha (seedRegs g key seq) = serialInit key seq := by
  rw [alpha, seedRegs, serialInit, SState.mk.injEq]
  refine ⟨?_, ?_, ?_⟩
  · show (0 * 2^64 + key) % 2^93 = key
    rw [Nat.zero_mul, Nat.zero_add]
    exact Nat.mod_eq_of_lt (lt_of_lt_of_le hk (by norm_num))
  · show (0 * 2^64 + seq) % 2^84 = seq
    rw [Nat.zero_mul, Nat.zero_add]
    exact Nat.mod_eq_of_lt (lt_of_lt_of_le hs (by norm_num))
  · show (0x700000000000 * 2^64 + 0) % 2^111 = 0x700000000000 * 2^64
    rw [Nat.add_zero]
    exact Nat.mod_eq_of_lt (by norm_num)

theorem WF_seedRegs (g : TState) (key seq : Nat) (hk : key < 2^64)
    (hs : seq < 2^64) : WF (seedRegs g key seq) :=
  ⟨hk, Nat.two_pow_pos 64, hs, Nat.two_pow_pos 64, Nat.two_pow_pos 64,
   (by norm_num : (0x700000000000:Nat) < 2^64)⟩

/-! ### Driver lemmas -/

theorem fullWords_state (n : Nat) : ∀ st, (fullWords n st).2 = stepN n st := by
  induction n with
  | zero => intro st; rfl
  | succ n ih => intro st; simp [fullWords, stepN, ih]

theorem uint64_to_bytes_length (u : Nat) : (uint64_to_bytes u).length = 8 := by
  simp [uint64_to_bytes]

theorem fullWords_length (n : Nat) :
    ∀ st, (fullWords n st).1.length = 8 * n := by
  induction n with
  | zero => intro st; rfl
  | succ n ih =>
    intro st
    simp [fullWords, uint64_to_bytes_length, ih]
    ring

theorem fullWords_split (m n : Nat) : ∀ st,
    fullWords (m + n) st =
      ((fullWords m st).1 ++ (fullWords n (stepN m st)).1,
       (fullWords n (stepN m st)).2) := by
  induction m with
  | zero => intro st; simp [fullWords, stepN]
  | succ m ih =>
    intro st
    simp only [Nat.succ_add, fullWords, ih, stepN, List.append_assoc]

theorem trivium_api_driver (g : TState) (key iv : List Nat) (n : Nat) :
    (trivium_api g key iv n).1 =
      apiDriver (trivium64_setseed g (bytes_to_uint64 key)
        (bytes_to_uint64 iv)) n := by
  rw [trivium_api, apiDriver]
  by_cases h : n % 8 = 0 <;> simp [h]

theorem stepN_iterate (n : Nat) : ∀ st, stepN n st = nextState^[n] st := by
  induction n with
  | zero => intro st; rfl
  | succ n ih =>
    intro st
    rw [stepN, Function.iterate_succ_apply, ih]

/-! ### Word codec lemmas -/

theorem and255 (x : Nat) : x &&& 255 = x % 256 := by
  rw [show (255:Nat) = 2^8 - 1 by norm_num, Nat.and_pow_two_sub_one_eq_mod]

theorem lor_low (a s b : Nat) (hb : b < 2^s) : (a <<< s) ||| b = a * 2^s + b := by
  rw [Nat.shiftLeft_eq, Nat.mul_comm a]
  exact (Nat.mul_add_lt_is_or hb a).symm

theorem or_reorder (y0 y1 y2 y3 y4 y5 y6 y7 : Nat) :
    ((((((y7 ||| y0) ||| y1) ||| y2) ||| y3) ||| y4) ||| y5) ||| y6
      = y0 ||| (y1 ||| (y2 ||| (y3 ||| (y4 ||| (y5 ||| (y6 ||| y7)))))) := by
  simp only [Nat.or_assoc]
  rw [Nat.or_comm y7]
  simp only [Nat.or_assoc]

theorem u2b_list (w : Nat) : uint64_to_bytes w =
    [(w >>> 56) &&& 255, (w >>> 48) &&& 255, (w >>> 40) &&& 255,
     (w >>> 32) &&& 255, (w >>> 24) &&& 255, (w >>> 16) &&& 255,
     (w >>> 8) &&& 255, w &&& 255] := by
  simp [uint64_to_bytes, List.range_succ]

theorem b2u_list (x0 x1 x2 x3 x4 x5 x6 x7 : Nat) :
    bytes_to_uint64 [x0, x1, x2, x3, x4, x5, x6, x7] =
      ((((((x7 ||| x0 <<< 56) ||| x1 <<< 48) ||| x2 <<< 40) ||| x3 <<< 32)
        ||| x4 <<< 24) ||| x5 <<< 16) ||| x6 <<< 8 := by
  simp [bytes_to_uint64, List.range_succ]

theorem b2u_u2b (w : Nat) (hw : w < 2^64) :
    bytes_to_uint64 (uint64_to_bytes w) = w := by
  rw [u2b_list, b2u_list, or_reorder]
  simp only [and255, Nat.shiftRight_eq_div_pow]
  rw [lor_low _ 8 _ (by omega), lor_low _ 16 _ (by omega),
    lor_low _ 24 _ (by omega), lor_low _ 32 _ (by omega),
    lor_low _ 40 _ (by omega), lor_low _ 48 _ (by omega),
    lor_low _ 56 _ (by omega)]
  omega

theorem u2b_b2u (b : List Nat) (hlen : b.length = 8)
    (hbyte : ∀ x ∈ b, x < 256) : uint64_to_bytes (bytes_to_uint64 b) = b := by
  match b, hlen with
  | [x0, x1, x2, x3, x4, x5, x6, x7], _ =>
    have h0 : x0 < 256 := hbyte x0 (by simp)
    have h1 : x1 < 256 := hbyte x1 (by simp)
    have h2 : x2 < 256 := hbyte x2 (by simp)
    have h3 : x3 < 256 := hbyte x3 (by simp)
    have h4 : x4 < 256 := hbyte x4 (by simp)
    have h5 : x5 < 256 := hbyte x5 (by simp)
    have h6 : x6 < 256 := hbyte x6 (by simp)
    have h7 : x7 < 256 := hbyte x7 (by simp)
    rw [b2u_list, or_reorder]
    simp only [Nat.shiftLeft_eq]
    rw [show x1 * 2^48 ||| (x2 * 2^40 ||| (x3 * 2^32 ||| (x4 * 2^24 |||
        (x5 * 2^16 ||| (x6 * 2^8 ||| x7)))))
      = (x1 <<< 48) ||| (x2 * 2^40 ||| (x3 * 2^32 ||| (x4 * 2^24 |||
        (x5 * 2^16 ||| ((x6 <<< 8) ||| x7)))))
      by rw [Nat.shiftLeft_eq, Nat.shiftLeft_eq]]
    rw [show x2 * 2^40 = x2 <<< 40 from (Nat.shiftLeft_eq x2 40).symm,
      show x3 * 2^32 = x3 <<< 32 from (Nat.shiftLeft_eq x3 32).symm,
      show x4 * 2^24 = x4 <<< 24 from (Nat.shiftLeft_eq x4 24).symm,
      show x5 * 2^16 = x5 <<< 16 from (Nat.shiftLeft_eq x5 16).symm,
      show x0 * 2^56 = x0 <<< 56 from (Nat.shiftLeft_eq x0 56).symm]
    rw [lor_low _ 8 _ (by omega), lor_low _ 16 _ (by omega),
      lor_low _ 24 _ (by omega), lor_low _ 32 _ (by omega),
      lor_low _ 40 _ (by omega), lor_low _ 48 _ (by omega),
      lor_low _ 56 _ (by omega)]
    rw [u2b_list]
    simp only [and255, Nat.shiftRight_eq_div_pow]
    simp only [List.cons.injEq, and_true]
    refine ⟨by omega, by omega, by omega, by omega, by omega, by omega,
      by omega, by omega⟩

/-! ### Write-index lemmas -/

theorem wordWrites_perm (q : Nat) :
    List.Perm (wordWrites q) ((List.range 8).map (fun i => 8 * q + i)) := by
  have h1 : wordWrites q
      = ((List.range 8).map (fun i => 7 - i)).map (fun i => 8 * q + i) := by
    simp [wordWrites, List.map_map, Function.comp]
  rw [h1]
  exact List.Perm.map _ (by decide)

theorem fullWrites_perm (q : Nat) :
    List.Perm (fullWrites q) (List.range (8 * q)) := by
  induction q with
  | zero => simp [fullWrites]
  | succ q ih =>
    rw [fullWrites, show 8 * (q+1) = 8 * q + 8 by ring, List.range_add]
    exact List.Perm.append ih (wordWrites_perm q)

theorem apiWrites_perm (n : Nat) :
    List.Perm (apiWriteIndices n) (List.range n) := by
  simp only [apiWriteIndices]
  have hr : List.range n = List.range (8 * ((n - n % 8) / 8) + n % 8) := by
    congr 1
    omega
  rw [hr, List.range_add]
  refine List.Perm.append (fullWrites_perm _) ?_
  have he : (List.range (n % 8)).map (fun i => (n - n % 8) + i)
      = (List.range (n % 8)).map (fun i => 8 * ((n - n % 8) / 8) + i) := by
    apply List.map_congr_left
    intro a _
    omega
  rw [he]

/-! ### Partial-tail lemmas -/

theorem apiDriver_length (st0 : TState) (n : Nat) :
    (apiDriver st0 n).length = n := by
  by_cases h : n % 8 = 0 <;>
    simp [apiDriver, h, fullWords_length] <;> omega

theorem apiDriver_tail (st0 : TState) (n : Nat) (h : ¬ n % 8 = 0) :
    apiDriver st0 n = apiDriver st0 (n - n % 8) ++
      (List.range (n % 8)).map
        (fun i => ((nextWord (stepN (n / 8) st0)) >>> (7 - i)) &&& 0xff) := by
  have h2 : (n - n % 8) % 8 = 0 := by omega
  have h4 : (n - n % 8) / 8 = n / 8 := by omega
  simp only [apiDriver]
  rw [if_neg h, if_pos h2, h2, Nat.sub_zero, h4, fullWords_state]

theorem apiDriver_take (st0 : TState) (n m : Nat) (h : n % 8 = 0) :
    apiDriver st0 n = (apiDriver st0 (n + m)).take n := by
  have hq : (fullWords (n / 8) st0).1.length = n := by
    rw [fullWords_length]
    omega
  by_cases hr : (n + m) % 8 = 0
  · simp only [apiDriver, if_pos h, if_pos hr, h, hr, Nat.sub_zero]
    have hsplit : (n + m) / 8 = n / 8 + ((n + m) / 8 - n / 8) := by omega
    rw [hsplit, fullWords_split]
    exact (List.take_left' hq).symm
  · simp only [apiDriver, if_pos h, if_neg hr, h, Nat.sub_zero]
    have hsplit : ((n + m) - (n + m) % 8) / 8
        = n / 8 + (((n + m) - (n + m) % 8) / 8 - n / 8) := by omega
    rw [hsplit, fullWords_split, List.append_assoc]
    exact (List.take_left' hq).symm

/-! ### Claim theorems -/

/-- Claim C1: for every 64-bit key and sequence number, `k` calls of the
batched step `trivium64_next` from the canonical initial state (the register
values set by `trivium64_setseed` before warm-up) produce exactly the same
`64 * k` output bits, in the same order, as `64 * k` rounds of the bit-serial
Trivium reference packed MSB-first into 64-bit words. -/
theorem claim_C1 (g : TState) (key seq k : Nat) (hk : key < 2^64)
    (hs : seq < 2^64) :
    trivRun k (seedRegs g key seq) =
      packBits (serialSteps (64 * k) (serialInit key seq)).1 := by
  rw [trivRun_pack k _ (WF_seedRegs g key seq hk hs),
    alpha_seedRegs g key seq hk hs]

theorem claim_C1_witness :
    (1:Nat) < 2^64 ∧ (2:Nat) < 2^64 ∧
    trivRun 1 (seedRegs ⟨0, 0, 0, 0, 0, 0⟩ 1 2) =
      packBits (serialSteps (64 * 1) (serialInit 1 2)).1 :=
  ⟨by norm_num, by norm_num,
   claim_C1 ⟨0, 0, 0, 0, 0, 0⟩ 1 2 1 (by norm_num) (by norm_num)⟩

/-- Claim C2: every tap value computed by `trivium64_next` is extracted from
that register's `(newer, older)` word pair by the identity
`tap(n) = (older << (128 - n)) XOR (newer >> (n - 64))`, where `n` is the
tap's bit offset within the register's 128-bit recent history (for register B
the canonical offset minus 93, for register C minus 177), and the taps are
exactly those at the canonical offsets {66, 93, 91, 92, 69} for A,
{162, 177, 171, 175, 176} for B and {243, 288, 264, 286, 287} for C. -/
theorem claim_C2 (st : TState) :
    tapA66 st = tapFormula st.s12 st.s11 66 ∧
    tapA93 st = tapFormula st.s12 st.s11 93 ∧
    tapA91 st = tapFormula st.s12 st.s11 91 ∧
    tapA92 st = tapFormula st.s12 st.s11 92 ∧
    tapA69 st = tapFormula st.s12 st.s11 69 ∧
    tapB162 st = tapFormula st.s22 st.s21 (162 - 93) ∧
    tapB177 st = tapFormula st.s22 st.s21 (177 - 93) ∧
    tapB171 st = tapFormula st.s22 st.s21 (171 - 93) ∧
    tapB175 st = tapFormula st.s22 st.s21 (175 - 93) ∧
    tapB176 st = tapFormula st.s22 st.s21 (176 - 93) ∧
    tapC243 st = tapFormula st.s32 st.s31 (243 - 177) ∧
    tapC288 st = tapFormula st.s32 st.s31 (288 - 177) ∧
    tapC264 st = tapFormula st.s32 st.s31 (264 - 177) ∧
    tapC286 st = tapFormula st.s32 st.s31 (286 - 177) ∧
    tapC287 st = tapFormula st.s32 st.s31 (287 - 177) := by
  refine ⟨?_, ?_, ?_, ?_, ?_, ?_, ?_, ?_, ?_, ?_, ?_, ?_, ?_, ?_, ?_⟩ <;> rfl

/-- Claim C3: one batched step outputs
`z = (tapA66 ^ tapA93) ^ (tapB162 ^ tapB177) ^ (tapC243 ^ tapC288)` and
rotates each register's `(newer, older)` pair to `(new value, previous newer)`,
where A's new word comes from C's branch (`t3`), B's from A's branch (`t1`)
and C's from B's branch (`t2`). -/
theorem claim_C3 (st : TState) :
    trivium64_next st =
      ((tapA66 st ^^^ tapA93 st) ^^^ (tapB162 st ^^^ tapB177 st) ^^^
         (tapC243 st ^^^ tapC288 st),
       ⟨tapC243 st ^^^ tapC288 st ^^^ (tapC286 st &&& tapC287 st) ^^^
          tapA69 st,
        st.s11,
        tapA66 st ^^^ tapA93 st ^^^ (tapA91 st &&& tapA92 st) ^^^ tapB171 st,
        st.s21,
        tapB162 st ^^^ tapB177 st ^^^ (tapB175 st &&& tapB176 st) ^^^
          tapC264 st,
        st.s31⟩) := by
  simp only [trivium64_next, Prod.mk.injEq, TState.mk.injEq, Nat.xor_assoc]

/-- Claim C4 fails as stated: the fixed constant `0x700000000000` written to
register C's older word is non-zero, but its three lowest-order bits are NOT
set (they are all clear; the set bits are bits 44, 45, 46). -/
theorem claim_C4_cex :
    ¬ ((seedRegs ⟨0, 0, 0, 0, 0, 0⟩ 0 0).s32.testBit 0 = true ∧
       (seedRegs ⟨0, 0, 0, 0, 0, 0⟩ 0 0).s32.testBit 1 = true ∧
       (seedRegs ⟨0, 0, 0, 0, 0, 0⟩ 0 0).s32.testBit 2 = true) := by
  decide

/-- Claim C4 (amended): seeding initializes register A's newer word to the
key and its older word to 0, register B's newer word to the sequence number
and its older word to 0, and register C's newer word to 0 and its older word
to the fixed non-zero constant `0x700000000000 = 2^44 + 2^45 + 2^46`, whose
three set bits are bits 44..46 — the oldest three positions of register C's
111-bit window, i.e. canonical Trivium's fixed "111" suffix at state bits
286..288 (not the constant's three lowest-order bits). -/
theorem claim_C4 (g : TState) (s q : Nat) :
    seedRegs g s q = ⟨s, 0, q, 0, 0, 0x700000000000⟩ ∧
    (0x700000000000 : Nat) ≠ 0 ∧
    (0x700000000000 : Nat) = 2^44 + 2^45 + 2^46 ∧
    sTap (alpha (seedRegs g s q)) 286 = true ∧
    sTap (alpha (seedRegs g s q)) 287 = true ∧
    sTap (alpha (seedRegs g s q)) 288 = true := by
  refine ⟨rfl, by norm_num, by norm_num, ?_, ?_, ?_⟩ <;>
  · simp only [sTap, alpha, seedRegs]
    rw [if_neg (by norm_num), if_neg (by norm_num)]
    decide

/-- Claim C5 fails as stated: with key and sequence number all-zero and
output length 5, the first tail byte of the keystream is not the top byte of
the tail step's 64-bit output word, so the tail is not a big-endian
truncation of that word (the code computes `(ks64 >> (7 - i)) & 0xff`,
single-bit shifts, instead of `(ks64 >> (8 * (7 - i))) & 0xff`). -/
theorem claim_C5_cex :
    ¬ ((apiBytes [0, 0, 0, 0, 0, 0, 0, 0] [0, 0, 0, 0, 0, 0, 0, 0] 5).getD 0 0
      = (tailWord [0, 0, 0, 0, 0, 0, 0, 0] [0, 0, 0, 0, 0, 0, 0, 0] 5 >>> 56)
          &&& 0xff) := by
  decide

/-- Claim C5 (amended): for every `outputLength` that is not a multiple of 8,
`trivium_api` returns exactly `outputLength` bytes; the output equals the
full-word output for `outputLength - outputLength % 8` bytes followed by the
final `outputLength % 8` bytes, each computed from the single additional
Keystream Step's output word `ks64` as `(ks64 >> (7 - i)) & 0xff` (single-bit
granularity shifts of the word, not a big-endian byte truncation). -/
theorem claim_C5 (key iv : List Nat) (n : Nat) (h : ¬ n % 8 = 0) :
    (apiBytes key iv n).length = n ∧
    apiBytes key iv n = apiBytes key iv (n - n % 8) ++
      (List.range (n % 8)).map
        (fun i => (tailWord key iv n >>> (7 - i)) &&& 0xff) := by
  have e1 : apiBytes key iv n = apiDriver (apiSeedState key iv) n :=
    trivium_api_driver _ _ _ _
  have e2 : apiBytes key iv (n - n % 8)
      = apiDriver (apiSeedState key iv) (n - n % 8) :=
    trivium_api_driver _ _ _ _
  refine ⟨?_, ?_⟩
  · rw [e1, apiDriver_length]
  · rw [e1, e2, apiDriver_tail _ _ h]
    rfl

theorem claim_C5_witness :
    ¬ (5 % 8 = 0) ∧
    (apiBytes [0, 0, 0, 0, 0, 0, 0, 0] [0, 0, 0, 0, 0, 0, 0, 0] 5).length = 5 :=
  ⟨by decide,
   (claim_C5 [0, 0, 0, 0, 0, 0, 0, 0] [0, 0, 0, 0, 0, 0, 0, 0] 5 (by decide)).1⟩

/-- Claim C6: seeding, after writing the register words, runs the batched
step exactly 18 times, discarding every output word (only the state
projection of `trivium64_next` is kept), and the state `trivium_api` uses for
real output is this seeded state, independent of the requested output
length. -/
theorem claim_C6 (g : TState) (s q : Nat) (key iv : List Nat) (n : Nat) :
    trivium64_setseed g s q
      = (fun st => (trivium64_next st).2)^[18] (seedRegs g s q) ∧
    (trivium_api g key iv n).1 =
      apiDriver (trivium64_setseed g (bytes_to_uint64 key)
        (bytes_to_uint64 iv)) n := by
  constructor
  · rw [trivium64_setseed, stepN_iterate]
    rfl
  · exact trivium_api_driver g key iv n

/-- Claim C7: the word codec is a bijection between 8-byte buffers and 64-bit
words: decoding after encoding is the identity on 64-bit words, and encoding
after decoding is the identity on 8-byte buffers. -/
theorem claim_C7 :
    (∀ w : Nat, w < 2^64 → bytes_to_uint64 (uint64_to_bytes w) = w) ∧
    (∀ b : List Nat, b.length = 8 → (∀ x ∈ b, x < 256) →
      uint64_to_bytes (bytes_to_uint64 b) = b) :=
  ⟨b2u_u2b, u2b_b2u⟩

theorem claim_C7_witness :
    (0x0123456789ABCDEF : Nat) < 2^64 ∧
    bytes_to_uint64 (uint64_to_bytes 0x0123456789ABCDEF)
      = 0x0123456789ABCDEF ∧
    ([1, 2, 3, 4, 5, 6, 7, 8] : List Nat).length = 8 ∧
    uint64_to_bytes (bytes_to_uint64 [1, 2, 3, 4, 5, 6, 7, 8])
      = [1, 2, 3, 4, 5, 6, 7, 8] :=
  ⟨by norm_num, claim_C7.1 _ (by norm_num), by decide,
   claim_C7.2 [1, 2, 3, 4, 5, 6, 7, 8] (by decide) (by decide)⟩

/-- Claim C8: `trivium_api` is deterministic in `(key, iv, ks_size)`; the
contents of the six global state words before the call have no influence on
the output bytes, because seeding overwrites all six words. -/
theorem claim_C8 (g1 g2 : TState) (key iv : List Nat) (n : Nat) :
    (trivium_api g1 key iv n).1 = (trivium_api g2 key iv n).1 := rfl

/-- Claim C9: for every output length `n` that is a multiple of 8 and every
`m`, the `n`-byte keystream equals the first `n` bytes of the `(n + m)`-byte
keystream for the same key and sequence number. -/
theorem claim_C9 (key iv : List Nat) (n m : Nat) (h : n % 8 = 0) :
    apiBytes key iv n = (apiBytes key iv (n + m)).take n := by
  rw [apiBytes, apiBytes, trivium_api_driver, trivium_api_driver]
  exact apiDriver_take _ n m h

theorem claim_C9_witness :
    (8:Nat) % 8 = 0 ∧
    apiBytes [0, 0, 0, 0, 0, 0, 0, 0] [0, 0, 0, 0, 0, 0, 0, 0] 8 =
      (apiBytes [0, 0, 0, 0, 0, 0, 0, 0] [0, 0, 0, 0, 0, 0, 0, 0] (8 + 5)).take
        8 :=
  ⟨by decide,
   claim_C9 [0, 0, 0, 0, 0, 0, 0, 0] [0, 0, 0, 0, 0, 0, 0, 0] 8 5 (by decide)⟩

/-- Claim C10: for every `ks_size`, the buffer offsets written by
`trivium_api` are exactly `0, …, ks_size - 1`, each exactly once (so no write
falls outside a buffer of capacity `ks_size`, and `ks_size = 0` writes
nothing). -/
theorem claim_C10 (n : Nat) :
    List.Perm (apiWriteIndices n) (List.range n) :=
  apiWrites_perm n

end Trivium
